import Mathlib

set_option autoImplicit false
set_option maxRecDepth 8192

namespace RustSync

/-!
Shallow embedding of `src/rust_sync/service.py` (RustPluginSync).

File contents are modelled as strings; the SHA-256 content hash of
`_hash_file` is modelled by content comparison (hash equality iff content
equality, a collision-free abstraction).  Relative paths are lists of
components.  Glob matching models `fnmatch.fnmatch` (where `*` also crosses
`/`) and `Path.rglob` (where a slash-free pattern is matched against the
final path component); the `*`, `?` and literal-character forms used by this
repository are covered, character classes are not.
-/

abbrev RelPath := List String

abbrev FileMap := List (RelPath × String)

/-- Match of the remaining pattern against every suffix of the string:
the semantics of `*`, which may consume any number of characters. -/
def starMatchAux (f : List Char → Bool) : List Char → Bool
  | [] => f []
  | c :: cs => f (c :: cs) || starMatchAux f cs

/-- Glob matching on character lists: `*` matches any sequence, `?` any
single character, everything else literally. -/
def globMatch : List Char → List Char → Bool
  | [], s => s.isEmpty
  | '*' :: ps, s => starMatchAux (globMatch ps) s
  | '?' :: ps, s =>
    match s with
    | [] => false
    | _ :: cs => globMatch ps cs
  | p :: ps, s =>
    match s with
    | [] => false
    | c :: cs => (p == c) && globMatch ps cs

/-- Model of `fnmatch.fnmatch(name, pat)` on a full POSIX-style relative
path: `*` crosses `/`, matching on the raw string. -/
def fnmatch (name pat : String) : Bool :=
  globMatch pat.toList name.toList

/-- Join a relative path into a POSIX-style string, as
`file.relative_to(base).as_posix()` does. -/
def joinPath : RelPath → String
  | [] => ""
  | [c] => c
  | c :: rest => c ++ "/" ++ joinPath rest

/-- Split a character list at a separator character. -/
def splitOnChar (sep : Char) : List Char → List (List Char)
  | [] => [[]]
  | c :: cs =>
    if c == sep then [] :: splitOnChar sep cs
    else
      match splitOnChar sep cs with
      | [] => [[c]]
      | h :: t => (c :: h) :: t

/-- Componentwise glob match of a pattern component list against a path
component list of the same length. -/
def componentsMatch : List (List Char) → List (List Char) → Bool
  | [], [] => true
  | p :: ps, c :: cs => globMatch p c && componentsMatch ps cs
  | _, _ => false

/-- Model of `base.rglob(pattern)` membership: the trailing components of
the relative path are matched componentwise against the pattern, so a
slash-free pattern is matched against the file name at any depth. -/
def rglobMatch (pat : String) (rel : RelPath) : Bool :=
  let pc := splitOnChar '/' pat.toList
  componentsMatch pc ((rel.map String.toList).drop (rel.length - pc.length))

/-- A relative path is selected by `_collect_files` when some include
pattern matches it via `rglob`. -/
def matchesInclude (includes : List String) (rel : RelPath) : Bool :=
  includes.any (fun pat => rglobMatch pat rel)

/-- A relative path is skipped by `_collect_files` when some exclude
pattern matches its POSIX string via `fnmatch`. -/
def matchesExclude (excludes : List String) (rel : RelPath) : Bool :=
  excludes.any (fun ex => fnmatch (joinPath rel) ex)

/-- Model of `_collect_files`: the files under the base directory matching
some include pattern and no exclude pattern.  The Python code builds a dict
keyed by relative path by iterating the patterns; since a directory listing
has distinct paths, the dict holds exactly the matching files, which the
filter computes (iteration order is immaterial to every property below). -/
def collectFiles (fs : FileMap) (includes excludes : List String) : FileMap :=
  fs.filter (fun e => matchesInclude includes e.1 && !matchesExclude excludes e.1)

/-- Lookup of the content stored at a relative path. -/
def lookupFile : FileMap → RelPath → Option String
  | [], _ => none
  | (r, c) :: rest, k => if r = k then some c else lookupFile rest k

/-- Remove every binding of a relative path (models `Path.unlink`). -/
def delFile : FileMap → RelPath → FileMap
  | [], _ => []
  | (r, c) :: rest, k => if r = k then delFile rest k else (r, c) :: delFile rest k

/-- Write the content at a relative path (models `shutil.copy2` onto the
destination). -/
def setFile (fs : FileMap) (k : RelPath) (c : String) : FileMap :=
  delFile fs k ++ [(k, c)]

/-- Destination directory state: its files and the set of directories
present under it (tracked because `mkdir` is a mutation). -/
structure DestFS where
  files : FileMap
  dirs : List RelPath
  deriving Repr, DecidableEq

/-- File-system mutations of one `_sync_tree` run that touch file
contents: a copy (create or update) or an extraneous-file deletion. -/
inductive FileAction where
  | copy (rel : RelPath)
  | del (rel : RelPath)
  deriving Repr, DecidableEq

/-- The ancestor directories of a file path, strictly below the
destination root: for `a/b/f` these are `a` and `a/b`. -/
def properPrefixes : RelPath → List RelPath
  | [] => []
  | [_] => []
  | c :: rest => [c] :: (properPrefixes rest).map (fun p => c :: p)

/-- Add a directory if absent (`mkdir` with `exist_ok=True`). -/
def addDir (dirs : List RelPath) (d : RelPath) : List RelPath :=
  if d ∈ dirs then dirs else dirs ++ [d]

/-- Model of `dest_path.parent.mkdir(parents=True, exist_ok=True)`: every
ancestor directory of the file is created. -/
def mkdirParents (dirs : List RelPath) (rel : RelPath) : List RelPath :=
  (properPrefixes rel).foldl addDir dirs

/-- The create/update pass of `_sync_tree`: for each collected source file,
the parent directories are created unconditionally, then the content hash
comparison decides skip versus copy, and `dry_run` suppresses the copy but
not the `mkdir`. -/
def copyPass (dryRun : Bool) : FileMap → DestFS → List FileAction → DestFS × List FileAction
  | [], dest, acts => (dest, acts)
  | (rel, content) :: rest, dest, acts =>
    let dirs := mkdirParents dest.dirs rel
    match lookupFile dest.files rel with
    | some dcontent =>
      match dcontent == content, dryRun with
      | true, _ => copyPass dryRun rest { dest with dirs := dirs } acts
      | false, true => copyPass dryRun rest { dest with dirs := dirs } acts
      | false, false =>
        copyPass dryRun rest { files := setFile dest.files rel content, dirs := dirs }
          (acts ++ [FileAction.copy rel])
    | none =>
      match dryRun with
      | true => copyPass dryRun rest { dest with dirs := dirs } acts
      | false =>
        copyPass dryRun rest { files := setFile dest.files rel content, dirs := dirs }
          (acts ++ [FileAction.copy rel])

/-- The delete-extraneous pass of `_sync_tree`: each extraneous relative
path is unlinked unless `dry_run` suppresses it. -/
def deletePass (dryRun : Bool) : List RelPath → DestFS → List FileAction → DestFS × List FileAction
  | [], dest, acts => (dest, acts)
  | rel :: rest, dest, acts =>
    match dryRun with
    | true => deletePass dryRun rest dest acts
    | false =>
      deletePass dryRun rest { dest with files := delFile dest.files rel }
        (acts ++ [FileAction.del rel])

/-- Model of `_sync_tree`: collect both inventories with the same
patterns, run the create/update pass over the source inventory, then, when
`delete_extraneous` is set, delete the destination-inventory paths absent
from the source inventory. -/
def syncTree (srcFiles : FileMap) (dest : DestFS) (includes excludes : List String)
    (deleteExtraneous dryRun : Bool) : DestFS × List FileAction :=
  let srcCollected := collectFiles srcFiles includes excludes
  let destCollected := collectFiles dest.files includes excludes
  let step1 := copyPass dryRun srcCollected dest []
  match deleteExtraneous with
  | true =>
    let extras := (destCollected.map (fun e => e.1)).filter
      (fun rel => !((srcCollected.map (fun e => e.1)).contains rel))
    deletePass dryRun extras step1.1 step1.2
  | false => step1

theorem lookupFile_append (l1 l2 : FileMap) (q : RelPath) :
    lookupFile (l1 ++ l2) q =
      match lookupFile l1 q with
      | some c => some c
      | none => lookupFile l2 q := by
  induction l1 with
  | nil => simp [lookupFile]
  | cons e rest ih =>
    obtain ⟨r, c⟩ := e
    by_cases h : r = q <;> simp [lookupFile, h, ih]

theorem lookupFile_delFile (fs : FileMap) (k q : RelPath) :
    lookupFile (delFile fs k) q = if k = q then none else lookupFile fs q := by
  induction fs with
  | nil => simp [delFile, lookupFile]
  | cons e rest ih =>
    obtain ⟨r, c⟩ := e
    by_cases hk : r = k
    · subst hk
      have hd : delFile ((r, c) :: rest) r = delFile rest r := by simp [delFile]
      rw [hd, ih]
      by_cases hq : r = q
      · simp [hq]
      · simp [lookupFile, hq]
    · by_cases hq : r = q
      · subst hq
        have hkq : ¬ k = r := fun h => hk h.symm
        simp [delFile, lookupFile, hk, hkq]
      · simp [delFile, lookupFile, hk, hq, ih]

theorem lookupFile_setFile (fs : FileMap) (k : RelPath) (c : String) (q : RelPath) :
    lookupFile (setFile fs k c) q = if k = q then some c else lookupFile fs q := by
  unfold setFile
  rw [lookupFile_append, lookupFile_delFile]
  by_cases h : k = q
  · simp [h, lookupFile]
  · simp only [if_neg h]
    cases hl : lookupFile fs q <;> simp [hl, lookupFile, h]

theorem mem_delFile (fs : FileMap) (k : RelPath) (e : RelPath × String) :
    e ∈ delFile fs k ↔ e ∈ fs ∧ e.1 ≠ k := by
  induction fs with
  | nil => simp [delFile]
  | cons f rest ih =>
    obtain ⟨r, c⟩ := f
    by_cases h : r = k <;> simp [delFile, h, ih] <;> aesop

theorem mem_setFile (fs : FileMap) (k : RelPath) (c : String) (e : RelPath × String) :
    e ∈ setFile fs k c ↔ (e ∈ fs ∧ e.1 ≠ k) ∨ e = (k, c) := by
  unfold setFile
  simp [mem_delFile]

theorem mem_addDir (dirs : List RelPath) (x d : RelPath) :
    d ∈ addDir dirs x ↔ d ∈ dirs ∨ d = x := by
  unfold addDir
  split_ifs with h <;> simp_all

theorem addDir_eq_of_mem (dirs : List RelPath) (x : RelPath) (h : x ∈ dirs) :
    addDir dirs x = dirs := by
  simp [addDir, h]

theorem mem_foldl_addDir (l : List RelPath) (dirs : List RelPath) (d : RelPath) :
    d ∈ l.foldl addDir dirs ↔ d ∈ dirs ∨ d ∈ l := by
  induction l generalizing dirs with
  | nil => simp
  | cons x rest ih =>
    simp only [List.foldl_cons, ih, mem_addDir, List.mem_cons]
    tauto

theorem mem_mkdirParents (dirs : List RelPath) (rel : RelPath) (d : RelPath) :
    d ∈ mkdirParents dirs rel ↔ d ∈ dirs ∨ d ∈ properPrefixes rel :=
  mem_foldl_addDir _ _ _

theorem foldl_addDir_eq_of_sub (l : List RelPath) (dirs : List RelPath)
    (h : ∀ p ∈ l, p ∈ dirs) : l.foldl addDir dirs = dirs := by
  induction l with
  | nil => rfl
  | cons x rest ih =>
    rw [List.foldl_cons, addDir_eq_of_mem dirs x (h x (List.mem_cons_self x rest))]
    exact ih (fun p hp => h p (List.mem_cons_of_mem x hp))

theorem mkdirParents_eq_of_sub (dirs : List RelPath) (rel : RelPath)
    (h : ∀ p ∈ properPrefixes rel, p ∈ dirs) : mkdirParents dirs rel = dirs :=
  foldl_addDir_eq_of_sub _ _ h

theorem copyPass_dry_files (l : FileMap) (dest : DestFS) (acts : List FileAction) :
    (copyPass true l dest acts).1.files = dest.files ∧ (copyPass true l dest acts).2 = acts := by
  induction l generalizing dest acts with
  | nil => simp [copyPass]
  | cons e rest ih =>
    obtain ⟨rel, content⟩ := e
    simp only [copyPass]
    cases hl : lookupFile dest.files rel with
    | some dcontent =>
      cases hc : dcontent == content <;> simp [hl, hc, ih]
    | none => simp [hl, ih]

theorem copyPass_dirs_mem (dry : Bool) (l : FileMap) (dest : DestFS) (acts : List FileAction)
    (d : RelPath) :
    d ∈ (copyPass dry l dest acts).1.dirs ↔
      d ∈ dest.dirs ∨ ∃ e ∈ l, d ∈ properPrefixes e.1 := by
  induction l generalizing dest acts with
  | nil => simp [copyPass]
  | cons e rest ih =>
    obtain ⟨rel, content⟩ := e
    simp only [copyPass]
    cases hl : lookupFile dest.files rel with
    | some dcontent =>
      cases hc : dcontent == content
      · cases dry <;> simp [hl, hc, ih, mem_mkdirParents] <;> tauto
      · simp [hl, hc, ih, mem_mkdirParents]
        tauto
    | none => cases dry <;> simp [hl, ih, mem_mkdirParents] <;> tauto

theorem deletePass_dry (l : List RelPath) (dest : DestFS) (acts : List FileAction) :
    deletePass true l dest acts = (dest, acts) := by
  induction l generalizing dest acts <;> simp_all [deletePass]

theorem deletePass_dirs (dry : Bool) (l : List RelPath) (dest : DestFS) (acts : List FileAction) :
    (deletePass dry l dest acts).1.dirs = dest.dirs := by
  induction l generalizing dest acts with
  | nil => simp [deletePass]
  | cons rel rest ih => cases dry <;> simp [deletePass, ih]

/-- Concrete source tree with one matched file inside a subdirectory. -/
def srcDirDemo : FileMap := [(["sub", "a.cs"], "x")]

/-- Concrete empty destination tree. -/
def destEmpty : DestFS := { files := [], dirs := [] }

/-- C1: the claim as stated is false: calling the tree differ with
`dryRun=true` does not leave the destination byte-identical, because
`dest_path.parent.mkdir(parents=True, exist_ok=True)` runs before the
dry-run check, so a missing parent directory of a matched source file is
created even under dry-run. -/
theorem c1_counterexample :
    (syncTree srcDirDemo destEmpty ["*.cs"] [] false true).1 ≠ destEmpty := by
  decide

/-- C1 amended: with `dryRun=true` the tree differ changes no file
content (no file is created, modified or deleted, and no copy or delete
action is performed); the only possible mutation is the creation of
parent directories of matched source files. -/
theorem c1_dry_run_amended (src : FileMap) (dest : DestFS) (includes excludes : List String)
    (dE : Bool) :
    ((syncTree src dest includes excludes dE true).1.files = dest.files) ∧
    ((syncTree src dest includes excludes dE true).2 = []) ∧
    (∀ d ∈ (syncTree src dest includes excludes dE true).1.dirs,
      d ∈ dest.dirs ∨ ∃ e ∈ collectFiles src includes excludes, d ∈ properPrefixes e.1) := by
  unfold syncTree
  have hfiles := copyPass_dry_files (collectFiles src includes excludes) dest []
  have hdirs := fun d => copyPass_dirs_mem true (collectFiles src includes excludes) dest [] d
  cases dE <;>
    simp only [deletePass_dry, Bool.false_eq_true, if_false, if_true] <;>
    exact ⟨hfiles.1, hfiles.2, fun d hd => (hdirs d).mp hd⟩

/-- Witness for the amended C1 theorem at a concrete input: the dry run
creates the parent directory `sub`, which the theorem attributes to the
matched source file `sub/a.cs`. -/
theorem c1_dry_run_amended_witness :
    ["sub"] ∈ (syncTree srcDirDemo destEmpty ["*.cs"] [] false true).1.dirs ∧
    (["sub"] ∈ destEmpty.dirs ∨
      ∃ e ∈ collectFiles srcDirDemo ["*.cs"] [], ["sub"] ∈ properPrefixes e.1) :=
  ⟨by decide, (c1_dry_run_amended srcDirDemo destEmpty ["*.cs"] [] false).2.2 ["sub"] (by decide)⟩

theorem mem_collectFiles (fs : FileMap) (includes excludes : List String) (e : RelPath × String) :
    e ∈ collectFiles fs includes excludes ↔
      e ∈ fs ∧ (matchesInclude includes e.1 && !matchesExclude excludes e.1) = true := by
  simp [collectFiles, List.mem_filter]

theorem containsRel_iff (l : List RelPath) (x : RelPath) : l.contains x = true ↔ x ∈ l := by
  induction l with
  | nil => simp
  | cons h t ih => simp [List.contains_cons, ih]

theorem DestFS.eq_of (a b : DestFS) (h1 : a.files = b.files) (h2 : a.dirs = b.dirs) : a = b := by
  cases a
  cases b
  simp_all

theorem copyPass_files_of_not_mem (dry : Bool) (l : FileMap) (q : RelPath) :
    ∀ (dest : DestFS) (acts : List FileAction), q ∉ l.map (fun e => e.1) →
      lookupFile (copyPass dry l dest acts).1.files q = lookupFile dest.files q := by
  induction l with
  | nil => intro dest acts _; simp [copyPass]
  | cons f rest ih =>
    intro dest acts hq
    obtain ⟨rel, content⟩ := f
    have hrel : ¬ rel = q := by
      intro h
      exact hq (by simp [h])
    have hrest : q ∉ rest.map (fun e => e.1) := by
      intro h
      exact hq (by simp [h])
    cases hl : lookupFile dest.files rel with
    | some dcontent =>
      cases hc : dcontent == content
      · cases dry
        · simp only [copyPass, hl, hc]
          rw [ih _ _ hrest]
          simp [lookupFile_setFile, hrel]
        · simp only [copyPass, hl, hc]
          rw [ih _ _ hrest]
      · simp only [copyPass, hl, hc]
        rw [ih _ _ hrest]
    | none =>
      cases dry
      · simp only [copyPass, hl]
        rw [ih _ _ hrest]
        simp [lookupFile_setFile, hrel]
      · simp only [copyPass, hl]
        rw [ih _ _ hrest]

theorem copyPass_writes (l : FileMap) :
    ∀ (dest : DestFS) (acts : List FileAction), (l.map (fun e => e.1)).Nodup →
      ∀ e ∈ l, lookupFile (copyPass false l dest acts).1.files e.1 = some e.2 := by
  induction l with
  | nil =>
    intro dest acts _ e he
    cases he
  | cons f rest ih =>
    intro dest acts hnd e he
    obtain ⟨rel, content⟩ := f
    simp only [List.map_cons, List.nodup_cons] at hnd
    obtain ⟨hnd1, hnd2⟩ := hnd
    rcases List.mem_cons.mp he with heq | hmem
    · subst heq
      cases hl : lookupFile dest.files rel with
      | some dcontent =>
        cases hc : dcontent == content
        · simp only [copyPass, hl, hc]
          rw [copyPass_files_of_not_mem false rest rel _ _ hnd1]
          simp [lookupFile_setFile]
        · simp only [copyPass, hl, hc]
          rw [copyPass_files_of_not_mem false rest rel _ _ hnd1, hl]
          have : dcontent = content := by simpa using hc
          rw [this]
      | none =>
        simp only [copyPass, hl]
        rw [copyPass_files_of_not_mem false rest rel _ _ hnd1]
        simp [lookupFile_setFile]
    · cases hl : lookupFile dest.files rel with
      | some dcontent =>
        cases hc : dcontent == content
        · simp only [copyPass, hl, hc]
          exact ih _ _ hnd2 e hmem
        · simp only [copyPass, hl, hc]
          exact ih _ _ hnd2 e hmem
      | none =>
        simp only [copyPass, hl]
        exact ih _ _ hnd2 e hmem

theorem copyPass_stable (dry : Bool) (l : FileMap) :
    ∀ (dest : DestFS) (acts : List FileAction),
      (∀ e ∈ l, lookupFile dest.files e.1 = some e.2) →
      (copyPass dry l dest acts).1.files = dest.files ∧ (copyPass dry l dest acts).2 = acts := by
  induction l with
  | nil => intro dest acts _; simp [copyPass]
  | cons f rest ih =>
    intro dest acts h
    obtain ⟨rel, content⟩ := f
    have hhead : lookupFile dest.files rel = some content :=
      h (rel, content) (List.mem_cons_self _ _)
    have hbeq : (content == content) = true := by simp
    simp only [copyPass, hhead, hbeq]
    exact ih _ _ (fun e he => h e (List.mem_cons_of_mem _ he))

theorem copyPass_dirs_stable (dry : Bool) (l : FileMap) :
    ∀ (dest : DestFS) (acts : List FileAction),
      (∀ e ∈ l, ∀ p ∈ properPrefixes e.1, p ∈ dest.dirs) →
      (copyPass dry l dest acts).1.dirs = dest.dirs := by
  induction l with
  | nil => intro dest acts _; simp [copyPass]
  | cons f rest ih =>
    intro dest acts h
    obtain ⟨rel, content⟩ := f
    have hd : mkdirParents dest.dirs rel = dest.dirs :=
      mkdirParents_eq_of_sub _ _ (h (rel, content) (List.mem_cons_self _ _))
    have htail : ∀ e ∈ rest, ∀ p ∈ properPrefixes e.1, p ∈ dest.dirs :=
      fun e he => h e (List.mem_cons_of_mem _ he)
    cases hl : lookupFile dest.files rel with
    | some dcontent =>
      cases hc : dcontent == content
      · cases dry
        · simp only [copyPass, hl, hc, hd]
          exact ih _ _ htail
        · simp only [copyPass, hl, hc, hd]
          exact ih _ _ htail
      · simp only [copyPass, hl, hc, hd]
        exact ih _ _ htail
    | none =>
      cases dry
      · simp only [copyPass, hl, hd]
        exact ih _ _ htail
      · simp only [copyPass, hl, hd]
        exact ih _ _ htail

theorem copyPass_mem_files (l : FileMap) :
    ∀ (dest : DestFS) (acts : List FileAction) (e : RelPath × String),
      e ∈ (copyPass false l dest acts).1.files →
      e ∈ dest.files ∨ e.1 ∈ l.map (fun x => x.1) := by
  induction l with
  | nil =>
    intro dest acts e he
    simp only [copyPass] at he
    exact Or.inl he
  | cons f rest ih =>
    intro dest acts e he
    obtain ⟨rel, content⟩ := f
    have lift : e ∈ setFile dest.files rel content ∨ e.1 ∈ rest.map (fun x => x.1) →
        e ∈ dest.files ∨ e.1 ∈ (List.map (fun x => x.1) ((rel, content) :: rest)) := by
      intro hx
      rcases hx with hx | hx
      · rcases (mem_setFile _ _ _ _).mp hx with ⟨hin, _⟩ | hx
        · exact Or.inl hin
        · right
          simp [hx]
      · right
        simp [hx]
    cases hl : lookupFile dest.files rel with
    | some dcontent =>
      cases hc : dcontent == content
      · simp only [copyPass, hl, hc] at he
        exact lift (ih _ _ e he)
      · simp only [copyPass, hl, hc] at he
        rcases ih _ _ e he with hx | hx
        · exact Or.inl hx
        · right
          simp [hx]
    | none =>
      simp only [copyPass, hl] at he
      exact lift (ih _ _ e he)

theorem deletePass_mem_files (l : List RelPath) :
    ∀ (dest : DestFS) (acts : List FileAction) (e : RelPath × String),
      e ∈ (deletePass false l dest acts).1.files → e ∈ dest.files ∧ e.1 ∉ l := by
  induction l with
  | nil =>
    intro dest acts e he
    simp only [deletePass] at he
    exact ⟨he, by simp⟩
  | cons rel rest ih =>
    intro dest acts e he
    simp only [deletePass] at he
    obtain ⟨hin, hout⟩ := ih _ _ e he
    obtain ⟨hin2, hne⟩ := (mem_delFile _ _ _).mp hin
    refine ⟨hin2, ?_⟩
    simp [hne, hout]

theorem deletePass_lookup_of_not_mem (l : List RelPath) :
    ∀ (dest : DestFS) (acts : List FileAction) (q : RelPath), q ∉ l →
      lookupFile (deletePass false l dest acts).1.files q = lookupFile dest.files q := by
  induction l with
  | nil => intro dest acts q _; simp [deletePass]
  | cons rel rest ih =>
    intro dest acts q hq
    have h1 : ¬ rel = q := fun h => hq (by simp [h])
    have h2 : q ∉ rest := fun h => hq (by simp [h])
    simp only [deletePass]
    rw [ih _ _ _ h2]
    simp [lookupFile_delFile, h1]

theorem collect_keys_nodup (src : FileMap) (includes excludes : List String)
    (h : (src.map (fun e => e.1)).Nodup) :
    ((collectFiles src includes excludes).map (fun e => e.1)).Nodup := by
  have hsub : List.Sublist (collectFiles src includes excludes) src := List.filter_sublist src
  exact List.Nodup.sublist (List.Sublist.map (fun e => e.1) hsub) h

theorem syncTree_writes (src : FileMap) (dest : DestFS) (includes excludes : List String)
    (dE : Bool) (hsrc : (src.map (fun e => e.1)).Nodup) :
    ∀ e ∈ collectFiles src includes excludes,
      lookupFile (syncTree src dest includes excludes dE false).1.files e.1 = some e.2 := by
  intro e he
  have hSnd := collect_keys_nodup src includes excludes hsrc
  have h1 := copyPass_writes (collectFiles src includes excludes) dest [] hSnd e he
  cases dE
  · simpa [syncTree] using h1
  · have hk : e.1 ∈ (collectFiles src includes excludes).map (fun x => x.1) :=
      List.mem_map_of_mem _ he
    have hcont : ((collectFiles src includes excludes).map (fun x => x.1)).contains e.1 = true :=
      (containsRel_iff _ _).mpr hk
    have hnot : e.1 ∉ ((collectFiles dest.files includes excludes).map (fun e => e.1)).filter
        (fun rel => !(((collectFiles src includes excludes).map (fun e => e.1)).contains rel)) := by
      intro hmem
      have hpred := (List.mem_filter.mp hmem).2
      simp [hcont] at hpred
      exact hpred e.2 he
    simp only [syncTree]
    rw [deletePass_lookup_of_not_mem _ _ _ _ hnot]
    exact h1

theorem syncTree_parentDirs (src : FileMap) (dest : DestFS) (includes excludes : List String)
    (dE : Bool) :
    ∀ e ∈ collectFiles src includes excludes, ∀ p ∈ properPrefixes e.1,
      p ∈ (syncTree src dest includes excludes dE false).1.dirs := by
  intro e he p hp
  have h1 : p ∈ (copyPass false (collectFiles src includes excludes) dest []).1.dirs :=
    (copyPass_dirs_mem false _ dest [] p).mpr (Or.inr ⟨e, he, hp⟩)
  cases dE
  · simpa [syncTree] using h1
  · simp only [syncTree, deletePass_dirs]
    exact h1

theorem syncTree_extras_sub (src : FileMap) (dest : DestFS) (includes excludes : List String) :
    ∀ k ∈ (collectFiles (syncTree src dest includes excludes true false).1.files
        includes excludes).map (fun e => e.1),
      k ∈ (collectFiles src includes excludes).map (fun e => e.1) := by
  intro k hk
  obtain ⟨e, he, hek⟩ := List.mem_map.mp hk
  obtain ⟨hef, hem⟩ := (mem_collectFiles _ _ _ _).mp he
  simp only [syncTree] at hef
  obtain ⟨h1, hne⟩ := deletePass_mem_files _ _ _ e hef
  rcases copyPass_mem_files _ _ _ e h1 with hdest | hkeys
  · have hDC : e ∈ collectFiles dest.files includes excludes :=
      (mem_collectFiles _ _ _ _).mpr ⟨hdest, hem⟩
    have hkD : e.1 ∈ (collectFiles dest.files includes excludes).map (fun x => x.1) :=
      List.mem_map_of_mem _ hDC
    by_cases hS : e.1 ∈ (collectFiles src includes excludes).map (fun x => x.1)
    · exact hek ▸ hS
    · exfalso
      apply hne
      apply List.mem_filter.mpr
      refine ⟨hkD, ?_⟩
      have hcf : ((collectFiles src includes excludes).map (fun e => e.1)).contains e.1 = false := by
        by_contra hcc
        have hct : ((collectFiles src includes excludes).map (fun e => e.1)).contains e.1 = true :=
          eq_true_of_ne_false (fun h => hcc h)
        exact hS ((containsRel_iff _ _).mp hct)
      show (!(((collectFiles src includes excludes).map (fun e => e.1)).contains e.1)) = true
      rw [hcf]
      rfl
  · exact hek ▸ hkeys

theorem syncTree_extras_nil (src : FileMap) (dest : DestFS) (includes excludes : List String) :
    ((collectFiles (syncTree src dest includes excludes true false).1.files
        includes excludes).map (fun e => e.1)).filter
      (fun k => !(((collectFiles src includes excludes).map (fun e => e.1)).contains k)) = [] := by
  apply List.filter_eq_nil_iff.mpr
  intro k hk
  have hmem := syncTree_extras_sub src dest includes excludes k hk
  have hc := (containsRel_iff _ _).mpr hmem
  simp [hc]
  simpa using hmem

theorem syncTree_noop (src : FileMap) (dest2 : DestFS) (includes excludes : List String)
    (dE : Bool)
    (hw : ∀ e ∈ collectFiles src includes excludes, lookupFile dest2.files e.1 = some e.2)
    (hd : ∀ e ∈ collectFiles src includes excludes, ∀ p ∈ properPrefixes e.1, p ∈ dest2.dirs)
    (hx : dE = true →
      ((collectFiles dest2.files includes excludes).map (fun e => e.1)).filter
        (fun k => !(((collectFiles src includes excludes).map (fun e => e.1)).contains k)) = []) :
    syncTree src dest2 includes excludes dE false = (dest2, []) := by
  have hcopy := copyPass_stable false (collectFiles src includes excludes) dest2 [] hw
  have hdirs := copyPass_dirs_stable false (collectFiles src includes excludes) dest2 [] hd
  have hfs : (copyPass false (collectFiles src includes excludes) dest2 []).1 = dest2 :=
    DestFS.eq_of _ _ hcopy.1 hdirs
  cases dE
  · simp only [syncTree]
    rw [Prod.ext_iff]
    exact ⟨hfs, hcopy.2⟩
  · simp only [syncTree]
    rw [hx rfl]
    simp only [deletePass]
    rw [Prod.ext_iff]
    exact ⟨hfs, hcopy.2⟩

/-- C8: re-running the tree differ immediately after a run with identical
inputs performs zero copies and zero deletes and leaves the destination
unchanged; every collected source file's content hash already matches its
destination counterpart, and with `deleteExtraneous` set the extraneous
set computed by the second delete pass is empty.  The hypothesis states
that the source listing has no duplicate relative paths, which holds for
any real directory tree. -/
theorem c8_idempotent (src : FileMap) (dest : DestFS) (includes excludes : List String)
    (dE : Bool) (hsrc : (src.map (fun e => e.1)).Nodup) :
    ((syncTree src (syncTree src dest includes excludes dE false).1 includes excludes dE false).2
      = [])
    ∧ ((syncTree src (syncTree src dest includes excludes dE false).1 includes excludes dE false).1
      = (syncTree src dest includes excludes dE false).1)
    ∧ (∀ e ∈ collectFiles src includes excludes,
      lookupFile (syncTree src dest includes excludes dE false).1.files e.1 = some e.2)
    ∧ (dE = true →
      ((collectFiles (syncTree src dest includes excludes dE false).1.files
          includes excludes).map (fun e => e.1)).filter
        (fun k => !(((collectFiles src includes excludes).map (fun e => e.1)).contains k)) = []) := by
  have hwrites := syncTree_writes src dest includes excludes dE hsrc
  have hdirs := syncTree_parentDirs src dest includes excludes dE
  have hx : dE = true →
      ((collectFiles (syncTree src dest includes excludes dE false).1.files
          includes excludes).map (fun e => e.1)).filter
        (fun k => !(((collectFiles src includes excludes).map (fun e => e.1)).contains k)) = [] := by
    intro h
    subst h
    exact syncTree_extras_nil src dest includes excludes
  have hno := syncTree_noop src (syncTree src dest includes excludes dE false).1
    includes excludes dE hwrites hdirs hx
  refine ⟨?_, ?_, hwrites, hx⟩
  · rw [hno]
  · rw [hno]

/-- Witness for the C8 theorem at a concrete input with a nonduplicated
source listing. -/
theorem c8_idempotent_witness :
    (([(["a.cs"], "x")] : FileMap).map (fun e => e.1)).Nodup ∧
    (syncTree [(["a.cs"], "x")]
      (syncTree [(["a.cs"], "x")] destEmpty ["*.cs"] [] true false).1 ["*.cs"] [] true false).2
      = [] :=
  ⟨by decide, (c8_idempotent [(["a.cs"], "x")] destEmpty ["*.cs"] [] true (by decide)).1⟩

/-- Model of the `ServerConfig` dataclass; paths are strings. -/
structure ServerConfig where
  name : String
  repoPath : String
  serverRoot : String
  pluginsTarget : String
  configTarget : String
  branch : Option String
  pluginsPattern : List String
  configPattern : List String
  excludePatterns : List String
  deleteExtraneous : Bool
  enabled : Bool
  deriving Repr, DecidableEq

/-- Model of the `Settings` dataclass; integer fields are modelled as
unbounded integers, as Python integers are. -/
structure Settings where
  logPath : String
  intervalSeconds : Int
  branch : String
  gitRetryCount : Int
  gitRetryDelaySeconds : Int
  gitTimeoutSeconds : Int
  startupDelaySeconds : Int
  dryRun : Bool
  servers : List ServerConfig
  deriving Repr

/-- Model of the `DeploymentRecord` dataclass; the float duration is
modelled as an integer number of seconds supplied by the environment. -/
structure DeploymentRecord where
  server : String
  commit : String
  author : String
  files : List String
  durationSeconds : Int
  timestamp : String
  status : String
  deriving Repr, DecidableEq

/-- Model of `SyncState.add_history`: append the record, then keep only
the last `_max_history = 200` entries when the bound is exceeded
(`self._history[-200:]` is `drop (length - 200)`). -/
def addHistory (history : List DeploymentRecord) (record : DeploymentRecord) :
    List DeploymentRecord :=
  let h := history ++ [record]
  if h.length > 200 then h.drop (h.length - 200) else h

theorem drop_append_le {α : Type} (l1 l2 : List α) (n : Nat) (h : n ≤ l1.length) :
    (l1 ++ l2).drop n = l1.drop n ++ l2 := by
  induction l1 generalizing n with
  | nil =>
    have : n = 0 := by simpa using h
    simp [this]
  | cons a t ih =>
    cases n with
    | zero => simp
    | succ m =>
      simp only [List.cons_append, List.drop_succ_cons]
      exact ih m (by simpa using h)

theorem addHistory_eq (history : List DeploymentRecord) (record : DeploymentRecord)
    (_h : history.length ≤ 200) :
    addHistory history record =
      (history ++ [record]).drop ((history ++ [record]).length - 200) := by
  show (if (history ++ [record]).length > 200 then
      (history ++ [record]).drop ((history ++ [record]).length - 200)
    else history ++ [record]) =
    (history ++ [record]).drop ((history ++ [record]).length - 200)
  split_ifs with hgt
  · rfl
  · have hz : (history ++ [record]).length - 200 = 0 := by
      simp only [List.length_append] at *
      omega
    rw [hz, List.drop_zero]

theorem foldl_addHistory (rs : List DeploymentRecord) :
    ∀ h0 : List DeploymentRecord, h0.length ≤ 200 →
      rs.foldl addHistory h0 = (h0 ++ rs).drop ((h0 ++ rs).length - 200) := by
  induction rs with
  | nil =>
    intro h0 hle
    have hz : h0.length - 200 = 0 := by omega
    simp [hz]
  | cons r rest ih =>
    intro h0 hle
    have hlen1 : (addHistory h0 r).length ≤ 200 := by
      rw [addHistory_eq h0 r hle]
      simp only [List.length_drop, List.length_append, List.length_singleton]
      omega
    rw [List.foldl_cons, ih (addHistory h0 r) hlen1, addHistory_eq h0 r hle]
    have hk1 : (h0 ++ [r]).length - 200 ≤ (h0 ++ [r]).length := Nat.sub_le _ _
    rw [← drop_append_le (h0 ++ [r]) rest _ hk1, List.drop_drop]
    have hassoc : (h0 ++ [r]) ++ rest = h0 ++ r :: rest := by simp
    rw [hassoc]
    congr 1
    simp only [List.length_drop, List.length_append, List.length_cons, List.length_nil]
    omega

/-- C7: from the initial empty history, any sequence of `add_history`
calls leaves at most 200 records, namely the most recent ones in append
order (the oldest are dropped); in particular 205 appends leave exactly
the last 200. -/
theorem c7_history_bound :
    (∀ rs : List DeploymentRecord,
      rs.foldl addHistory [] = rs.drop (rs.length - 200) ∧
        (rs.foldl addHistory []).length ≤ 200)
    ∧ (∀ rs : List DeploymentRecord, rs.length = 205 → rs.foldl addHistory [] = rs.drop 5) := by
  have hmain : ∀ rs : List DeploymentRecord, rs.foldl addHistory [] = rs.drop (rs.length - 200) := by
    intro rs
    have hh := foldl_addHistory rs [] (by simp)
    simpa using hh
  constructor
  · intro rs
    refine ⟨hmain rs, ?_⟩
    rw [hmain rs]
    simp only [List.length_drop]
    omega
  · intro rs h205
    rw [hmain rs, h205]

/-- A concrete deployment record used by witnesses. -/
def mkRec (i : Nat) : DeploymentRecord :=
  { server := "main", commit := toString i, author := "a", files := [],
    durationSeconds := 0, timestamp := "t", status := "OK" }

/-- Witness for the C7 theorem: appending 205 concrete records leaves
exactly the last 200 of them. -/
theorem c7_history_bound_witness :
    ((List.range 205).map mkRec).length = 205 ∧
      ((List.range 205).map mkRec).foldl addHistory [] = ((List.range 205).map mkRec).drop 5 :=
  ⟨by simp, c7_history_bound.2 ((List.range 205).map mkRec) (by simp)⟩

/-- One observable action of an iteration of `SyncRunner.run_forever`:
either a full cycle over all configured servers runs, or the loop sleeps
for the given number of seconds (via `_sleep_with_stop`). -/
inductive IterAct where
  | ranCycle
  | slept (seconds : Int)
  deriving Repr, DecidableEq

/-- Model of one iteration of the `SyncRunner.run_forever` loop body,
given whether `consume_run_once()` returned true and whether the
controller is paused: on a consumed run-once the cycle runs and the loop
then sleeps 1 second when paused, else the full configured interval;
otherwise pause sleeps 1 second, and the normal path runs the cycle and
sleeps the full interval. -/
def runnerIteration (settings : Settings) (runOnceConsumed paused : Bool) : List IterAct :=
  match runOnceConsumed with
  | true =>
    [IterAct.ranCycle, IterAct.slept (match paused with
      | true => 1
      | false => settings.intervalSeconds)]
  | false =>
    match paused with
    | true => [IterAct.slept 1]
    | false => [IterAct.ranCycle, IterAct.slept settings.intervalSeconds]

/-- Concrete settings used in the scheduler counterexample and the cycle
witnesses: the configured interval is 120 seconds. -/
def settingsDemo : Settings :=
  { logPath := "deploy.log", intervalSeconds := 120, branch := "main",
    gitRetryCount := 3, gitRetryDelaySeconds := 10, gitTimeoutSeconds := 30,
    startupDelaySeconds := 1, dryRun := false, servers := [] }

/-- C4: the claim as stated is false: after a consumed run-once request
with the controller not paused, the loop sleeps the full configured
interval (120 seconds here), not a short fixed interval; the short
1-second sleep is taken only when paused. -/
theorem c4_counterexample :
    runnerIteration settingsDemo true false = [IterAct.ranCycle, IterAct.slept 120] ∧
      settingsDemo.intervalSeconds = 120 ∧
      IterAct.slept 1 ∉ runnerIteration settingsDemo true false := by
  decide

/-- C4 amended: when a run-once request is consumed the full cycle runs
regardless of the pause state, and the loop then sleeps 1 second if the
controller is paused, else the full configured interval. -/
theorem c4_run_once_amended (settings : Settings) (paused : Bool) :
    runnerIteration settings true paused =
      [IterAct.ranCycle, IterAct.slept (match paused with
        | true => 1
        | false => settings.intervalSeconds)] ∧
    IterAct.ranCycle ∈ runnerIteration settings true paused := by
  cases paused <;> simp [runnerIteration]

/-- True for the whitespace characters stripped by `str.strip()` that can
occur in configuration values. -/
def isSpaceChar (c : Char) : Bool :=
  c == ' ' || c == '\t' || c == '\n' || c == '\r'

/-- Drop leading whitespace characters. -/
def dropLeadingSpaces : List Char → List Char
  | [] => []
  | c :: cs => match isSpaceChar c with
    | true => dropLeadingSpaces cs
    | false => c :: cs

/-- Model of Python `str.strip()`: whitespace removed from both ends. -/
def stripString (s : String) : String :=
  ⟨(dropLeadingSpaces (dropLeadingSpaces s.toList).reverse).reverse⟩

/-- One entry of the `Servers` list of a configuration document.  The
model covers documents whose fields, when present, carry values of the
expected primitive type (a pattern value given as a single string is
written as its singleton list); `none` is an absent key or a JSON null,
which `dict.get` treats alike. -/
structure ServerDoc where
  name : Option String := none
  repoPath : Option String := none
  serverRoot : Option String := none
  pluginsTarget : Option String := none
  configTarget : Option String := none
  branch : Option String := none
  pluginsPattern : Option (List String) := none
  configPattern : Option (List String) := none
  excludePatterns : Option (List String) := none
  deleteExtraneous : Option Bool := none
  enabled : Option Bool := none
  deriving Repr

/-- A configuration document as consumed by `_settings_from_config`. -/
structure ConfigDoc where
  logPath : Option String := none
  intervalSeconds : Option Int := none
  branch : Option String := none
  gitRetryCount : Option Int := none
  gitRetryDelaySeconds : Option Int := none
  gitTimeoutSeconds : Option Int := none
  startupDelaySeconds : Option Int := none
  dryRun : Option Bool := none
  servers : Option (List ServerDoc) := none
  deriving Repr

/-- Model of the inner `_require_positive` helper. -/
def requirePositive (value : Int) (name : String) : Except String Int :=
  if value ≤ 0 then Except.error (name ++ " must be > 0 (got " ++ toString value ++ ")")
  else Except.ok value

/-- Model of the inner `_parse_patterns` helper: a missing value takes
the default, an explicitly empty list is rejected when the default is
nonempty, entries are stripped and blank entries dropped, and a nonempty
input that strips down to nothing is rejected. -/
def parsePatterns (value : Option (List String)) (dflt : List String) :
    Except String (List String) :=
  match value with
  | none => Except.ok dflt
  | some vs =>
    if vs.isEmpty && !dflt.isEmpty then Except.error "Patterns list cannot be empty"
    else
      let patterns := (vs.map stripString).filter (fun s => !(s == ""))
      if patterns.isEmpty && !vs.isEmpty then Except.error "Patterns list cannot be empty"
      else Except.ok patterns

/-- Model of the per-server parsing loop of `_settings_from_config`: the
name is taken with default `""` and stripped and must be nonempty;
`RepoPath` and `ServerRoot` are mandatory (`item[...]` raises `KeyError`);
targets default below `ServerRoot`; patterns and booleans take their
documented defaults.  No uniqueness check is performed on names. -/
def parseServer (item : ServerDoc) : Except String ServerConfig :=
  let name := stripString (item.name.getD "")
  if name == "" then Except.error "Server Name is required"
  else
    match item.repoPath with
    | none => Except.error "KeyError: RepoPath"
    | some repoPath =>
      match item.serverRoot with
      | none => Except.error "KeyError: ServerRoot"
      | some serverRoot =>
        let pluginsTarget := item.pluginsTarget.getD (serverRoot ++ "/oxide/plugins")
        let configTarget := item.configTarget.getD (serverRoot ++ "/oxide/config")
        match parsePatterns item.pluginsPattern ["*.cs"] with
        | Except.error e => Except.error e
        | Except.ok pluginsPattern =>
          match parsePatterns item.configPattern ["*.json"] with
          | Except.error e => Except.error e
          | Except.ok configPattern =>
            match parsePatterns (some (item.excludePatterns.getD [])) [] with
            | Except.error e => Except.error e
            | Except.ok excludePatterns =>
              Except.ok
                { name := name, repoPath := repoPath, serverRoot := serverRoot,
                  pluginsTarget := pluginsTarget, configTarget := configTarget,
                  branch := item.branch, pluginsPattern := pluginsPattern,
                  configPattern := configPattern, excludePatterns := excludePatterns,
                  deleteExtraneous := item.deleteExtraneous.getD false,
                  enabled := item.enabled.getD true }

/-- The servers list is parsed in order; the first failing entry aborts. -/
def parseServers : List ServerDoc → Except String (List ServerConfig)
  | [] => Except.ok []
  | item :: rest =>
    match parseServer item with
    | Except.error e => Except.error e
    | Except.ok s =>
      match parseServers rest with
      | Except.error e => Except.error e
      | Except.ok ss => Except.ok (s :: ss)

/-- Model of `_settings_from_config`: `LogPath` and `Servers` are
mandatory; `IntervalSeconds`, `GitRetryCount`, `GitTimeoutSeconds` and
`StartupDelaySeconds` default to 120, 3, 30 and 1 and must be positive;
`GitRetryDelaySeconds` defaults to 10 and is taken without any
validation; `Servers` must be a nonempty list. -/
def settingsFromConfig (cfg : ConfigDoc) : Except String Settings :=
  match cfg.logPath with
  | none => Except.error "Missing config key: LogPath"
  | some logPath =>
    match requirePositive (cfg.intervalSeconds.getD 120) "IntervalSeconds" with
    | Except.error e => Except.error e
    | Except.ok intervalSeconds =>
      match requirePositive (cfg.gitRetryCount.getD 3) "GitRetryCount" with
      | Except.error e => Except.error e
      | Except.ok gitRetryCount =>
        match requirePositive (cfg.gitTimeoutSeconds.getD 30) "GitTimeoutSeconds" with
        | Except.error e => Except.error e
        | Except.ok gitTimeoutSeconds =>
          match requirePositive (cfg.startupDelaySeconds.getD 1) "StartupDelaySeconds" with
          | Except.error e => Except.error e
          | Except.ok startupDelaySeconds =>
            match cfg.servers with
            | none => Except.error "Missing config key: Servers"
            | some serverDocs =>
              if serverDocs.isEmpty then Except.error "Servers must be a non-empty list"
              else
                match parseServers serverDocs with
                | Except.error e => Except.error e
                | Except.ok servers =>
                  Except.ok
                    { logPath := logPath, intervalSeconds := intervalSeconds,
                      branch := cfg.branch.getD "main", gitRetryCount := gitRetryCount,
                      gitRetryDelaySeconds := cfg.gitRetryDelaySeconds.getD 10,
                      gitTimeoutSeconds := gitTimeoutSeconds,
                      startupDelaySeconds := startupDelaySeconds,
                      dryRun := cfg.dryRun.getD false, servers := servers }

/-- Model of `validate_config_dict`: the empty list when parsing
succeeds, else the single error message. -/
def validateConfigDict (cfg : ConfigDoc) : List String :=
  match settingsFromConfig cfg with
  | Except.ok _ => []
  | Except.error e => [e]

theorem requirePositive_ok (v : Int) (name : String) (w : Int)
    (h : requirePositive v name = Except.ok w) : 0 < v := by
  unfold requirePositive at h
  split_ifs at h with hv
  omega

theorem validate_ne_nil_of_no_ok (cfg : ConfigDoc)
    (hbad : ∀ s, settingsFromConfig cfg ≠ Except.ok s) :
    validateConfigDict cfg ≠ [] := by
  unfold validateConfigDict
  cases hc : settingsFromConfig cfg with
  | ok s => exact absurd hc (hbad s)
  | error e => simp

theorem parseServers_ok_names (l : List ServerDoc) :
    ∀ ss, parseServers l = Except.ok ss →
      ∀ sd ∈ l, ¬ stripString (sd.name.getD "") = "" := by
  induction l with
  | nil =>
    intro ss _ sd hm
    cases hm
  | cons item rest ih =>
    intro ss h sd hm
    unfold parseServers at h
    split at h
    · cases h
    next s1 hp =>
      split at h
      · cases h
      next ss1 hr =>
        rcases List.mem_cons.mp hm with rfl | hmem
        · intro hname
          unfold parseServer at hp
          rw [hname] at hp
          simp at hp
        · exact ih ss1 hr sd hmem

theorem settingsFromConfig_ok_shape (cfg : ConfigDoc) (s : Settings)
    (hok : settingsFromConfig cfg = Except.ok s) :
    (∀ n, cfg.intervalSeconds = some n → 0 < n) ∧
    (∀ n, cfg.gitRetryCount = some n → 0 < n) ∧
    (∀ n, cfg.gitTimeoutSeconds = some n → 0 < n) ∧
    (∀ n, cfg.startupDelaySeconds = some n → 0 < n) ∧
    (∀ l, cfg.servers = some l → ∃ ss, parseServers l = Except.ok ss) := by
  unfold settingsFromConfig at hok
  split at hok
  · exact absurd hok (by simp)
  next lp hlp =>
    split at hok
    · exact absurd hok (by simp)
    next i1 h1 =>
      split at hok
      · exact absurd hok (by simp)
      next r1 h2 =>
        split at hok
        · exact absurd hok (by simp)
        next t1 h3 =>
          split at hok
          · exact absurd hok (by simp)
          next d1 h4 =>
            split at hok
            · exact absurd hok (by simp)
            next serverDocs hserv =>
              split_ifs at hok with hemp
              split at hok
              · exact absurd hok (by simp)
              next ss hss =>
                refine ⟨?_, ?_, ?_, ?_, ?_⟩
                · intro n hn
                  rw [hn] at h1
                  simpa using requirePositive_ok _ _ _ h1
                · intro n hn
                  rw [hn] at h2
                  simpa using requirePositive_ok _ _ _ h2
                · intro n hn
                  rw [hn] at h3
                  simpa using requirePositive_ok _ _ _ h3
                · intro n hn
                  rw [hn] at h4
                  simpa using requirePositive_ok _ _ _ h4
                · intro l hl
                  rw [hl] at hserv
                  injection hserv with hls
                  subst hls
                  exact ⟨ss, hss⟩

/-- A well-formed server entry used by the configuration witnesses. -/
def serverDocDemo : ServerDoc :=
  { name := some "main", repoPath := some "C:/deploy/repo", serverRoot := some "C:/server" }

/-- A configuration document that is valid in every respect except that
`GitRetryDelaySeconds` is negative. -/
def negDelayDoc : ConfigDoc :=
  { logPath := some "deploy.log", gitRetryDelaySeconds := some (-5),
    servers := some [serverDocDemo] }

/-- C9: the claim as stated is false: `_settings_from_config` never
validates `GitRetryDelaySeconds` (the value is read with
`int(cfg.get(...))` and no sign check), so a document whose retry delay
is -5 validates with no error. -/
theorem c9_counterexample :
    negDelayDoc.gitRetryDelaySeconds = some (-5) ∧ validateConfigDict negDelayDoc = [] := by
  constructor
  · rfl
  · rfl

/-- C9 amended: validation reports a configuration error for every
document in which `IntervalSeconds`, `GitTimeoutSeconds`,
`GitRetryCount` or `StartupDelaySeconds` is non-positive, but
`GitRetryDelaySeconds` is not validated at all: a negative value is
accepted. -/
theorem c9_validation_amended :
    (∀ cfg : ConfigDoc,
      ((∃ n, cfg.intervalSeconds = some n ∧ n ≤ 0) ∨
       (∃ n, cfg.gitRetryCount = some n ∧ n ≤ 0) ∨
       (∃ n, cfg.gitTimeoutSeconds = some n ∧ n ≤ 0) ∨
       (∃ n, cfg.startupDelaySeconds = some n ∧ n ≤ 0)) →
      validateConfigDict cfg ≠ []) ∧
    (validateConfigDict negDelayDoc = [] ∧ negDelayDoc.gitRetryDelaySeconds = some (-5)) := by
  constructor
  · intro cfg hbad
    apply validate_ne_nil_of_no_ok
    intro s hok
    obtain ⟨hi, hr, ht, hd, _⟩ := settingsFromConfig_ok_shape cfg s hok
    rcases hbad with ⟨n, hn, hle⟩ | ⟨n, hn, hle⟩ | ⟨n, hn, hle⟩ | ⟨n, hn, hle⟩
    · exact absurd (hi n hn) (by omega)
    · exact absurd (hr n hn) (by omega)
    · exact absurd (ht n hn) (by omega)
    · exact absurd (hd n hn) (by omega)
  · exact ⟨rfl, rfl⟩

/-- A document with a non-positive interval, used as the witness input
for the amended C9 theorem. -/
def badIntervalDoc : ConfigDoc :=
  { logPath := some "deploy.log", intervalSeconds := some 0,
    servers := some [serverDocDemo] }

/-- Witness for the amended C9 theorem at a concrete input: a document
with `IntervalSeconds = 0` is rejected. -/
theorem c9_validation_amended_witness :
    validateConfigDict badIntervalDoc ≠ [] :=
  c9_validation_amended.1 badIntervalDoc (Or.inl ⟨0, rfl, by decide⟩)

/-- A server entry named `alpha`, duplicated in the C10 counterexample. -/
def serverDocAlpha : ServerDoc :=
  { name := some "alpha", repoPath := some "C:/deploy/repo", serverRoot := some "C:/server" }

/-- A document with two servers that share the same name. -/
def dupNamesDoc : ConfigDoc :=
  { logPath := some "deploy.log", servers := some [serverDocAlpha, serverDocAlpha] }

/-- C10: the claim as stated is false: `_settings_from_config` performs
no uniqueness check on server names, so a document whose two servers are
both named `alpha` validates with no error. -/
theorem c10_counterexample :
    dupNamesDoc.servers = some [serverDocAlpha, serverDocAlpha] ∧
      serverDocAlpha.name = some "alpha" ∧
      validateConfigDict dupNamesDoc = [] := ⟨rfl, rfl, rfl⟩

/-- C10 amended: validation requires every server name to be nonempty
after stripping whitespace, but does not require names to be pairwise
distinct: duplicated names are accepted. -/
theorem c10_server_names_amended :
    (∀ (cfg : ConfigDoc) (l : List ServerDoc) (sd : ServerDoc),
      cfg.servers = some l → sd ∈ l → stripString (sd.name.getD "") = "" →
      validateConfigDict cfg ≠ []) ∧
    (validateConfigDict dupNamesDoc = [] ∧
      dupNamesDoc.servers = some [serverDocAlpha, serverDocAlpha] ∧
      serverDocAlpha.name = some "alpha") := by
  constructor
  · intro cfg l sd hl hsd hname
    apply validate_ne_nil_of_no_ok
    intro s hok
    obtain ⟨_, _, _, _, hs⟩ := settingsFromConfig_ok_shape cfg s hok
    obtain ⟨ss, hss⟩ := hs l hl
    exact parseServers_ok_names l ss hss sd hsd hname
  · exact ⟨rfl, rfl, rfl⟩

/-- A document whose single server has a blank name, used as the witness
input for the amended C10 theorem. -/
def blankNameDoc : ConfigDoc :=
  { logPath := some "deploy.log",
    servers := some [{ name := some "  ", repoPath := some "r", serverRoot := some "s" }] }

/-- Witness for the amended C10 theorem at a concrete input: a document
whose server name strips to the empty string is rejected. -/
theorem c10_server_names_amended_witness :
    validateConfigDict blankNameDoc ≠ [] :=
  c10_server_names_amended.1 blankNameDoc
    [{ name := some "  ", repoPath := some "r", serverRoot := some "s" }]
    { name := some "  ", repoPath := some "r", serverRoot := some "s" }
    rfl (List.mem_singleton.mpr rfl) (by decide)

/-- Model of the `ServerStatus` dataclass. -/
structure ServerStatus where
  name : String
  lastDeployTime : Option String := none
  lastCommit : Option String := none
  lastError : Option String := none
  lastDurationSeconds : Option Int := none
  lastRunTime : Option String := none
  lastStatus : String := "UNKNOWN"
  deriving Repr, DecidableEq

/-- One externally visible side effect of a server cycle: a `git fetch`
invocation (with its timeout bound), the retry delay slept after a failed
fetch, a `git reset --hard` to the given commit, or one of the two tree
syncs. -/
inductive Ev where
  | fetchAttempt (timeoutSeconds : Int)
  | retrySleep (delaySeconds : Int)
  | resetHard (ref : String)
  | syncPlugins
  | syncConfig
  deriving Repr, DecidableEq

/-- Environment oracle for one server's cycle, abstracting the git
subprocess calls and the tree syncs of `_run_cycle`: outcomes of the
successive fetch attempts, the `rev-parse` results for `HEAD` and
`origin/<effective branch>`, the file listing and contents at the remote
ref (`ls-tree -r --name-only <ref> config` and `show <ref>:<file>`,
with `lsTreeOk`/missing-file failures injectable), whether a content
string parses as JSON (`json.loads`), the outcomes of `reset --hard`,
`show --name-only` and the two `_sync_tree` calls, and the wall-clock
values used for the status stamps. -/
structure GitEnv where
  pathsOk : Bool
  fetchResults : Nat → Bool
  localHead : Option String
  remoteCommit : Option String
  lsTreeOk : Bool
  refFiles : List (String × String)
  jsonOk : String → Bool
  resetOk : Bool
  commitInfoOk : Bool
  commitAuthor : String
  commitFiles : List String
  syncPluginsOk : Bool
  syncConfigOk : Bool
  nowIso : String
  durationSeconds : Int

/-- True when the first list is a prefix of the second. -/
def charsIsPrefixOf : List Char → List Char → Bool
  | [], _ => true
  | _ :: _, [] => false
  | c :: cs, d :: ds => (c == d) && charsIsPrefixOf cs ds

/-- Model of `Path.rev_parse` truthiness in `if not local or not remote`:
`None` and the empty string are falsy. -/
def strTruthy : Option String → Bool
  | none => false
  | some s => !(s == "")

/-- Model of `_git_fetch_with_retries`: the loop body for the attempts
numbered `attempt, attempt+1, ...` with `k` attempts remaining.  A failed
attempt logs and sleeps `gitRetryDelaySeconds` (also after the last
attempt, as the Python loop does). -/
def fetchGo (settings : Settings) (env : GitEnv) : Nat → Nat → Bool × List Ev
  | _, 0 => (false, [])
  | attempt, k + 1 =>
    match env.fetchResults attempt with
    | true => (true, [Ev.fetchAttempt settings.gitTimeoutSeconds])
    | false =>
      let r := fetchGo settings env (attempt + 1) k
      (r.1, Ev.fetchAttempt settings.gitTimeoutSeconds ::
        Ev.retrySleep settings.gitRetryDelaySeconds :: r.2)

/-- `_git_fetch_with_retries` iterates `range(1, git_retry_count + 1)`. -/
def gitFetchWithRetries (settings : Settings) (env : GitEnv) : Bool × List Ev :=
  fetchGo settings env 1 settings.gitRetryCount.toNat

/-- The lines printed by `ls-tree -r --name-only <ref> config`: the paths
at the remote ref lying under the `config/` directory. -/
def lsTreeConfigLines (env : GitEnv) : List String :=
  (env.refFiles.map (fun e => e.1)).filter
    (fun p => charsIsPrefixOf "config/".toList p.toList)

/-- The files `_validate_json_from_ref` actually checks: the listed
`config/` paths that survive the exclude patterns and match some config
pattern (both via `fnmatch` on the full relative path). -/
def validateTargets (server : ServerConfig) (env : GitEnv) : List String :=
  (lsTreeConfigLines env).filter (fun rel =>
    !(server.excludePatterns.any (fun ex => fnmatch rel ex)) &&
    server.configPattern.any (fun pat => fnmatch rel pat))

/-- Model of `git show <ref>:<file>`: the content at the remote ref, or
failure when the path is absent there. -/
def showFileAtRef (env : GitEnv) (file : String) : Option String :=
  (env.refFiles.find? (fun e => e.1 == file)).map (fun e => e.2)

/-- Model of `_validate_json_from_ref`: false on an `ls-tree` failure, a
`show` failure for any target file, or any target content that fails to
parse as JSON; true when every target parses. -/
def validateJsonFromRef (server : ServerConfig) (env : GitEnv) : Bool :=
  env.lsTreeOk &&
  (validateTargets server env).all (fun file =>
    match showFileAtRef env file with
    | none => false
    | some content => env.jsonOk content)

/-- Outcome of one server's reconciliation cycle: the status record after
the cycle's `update_server_status` calls, the side-effect trace, and the
history record appended, if any. -/
structure CycleOut where
  status : ServerStatus
  events : List Ev
  record : Option DeploymentRecord
  deriving Repr

/-- Model of the per-server body of `_run_cycle`: skip when disabled;
stamp `last_run_time`; check paths; fetch with retries; resolve `HEAD`
and `origin/<branch>` (`None` or empty output is a failure); validate the
remote config JSON; hard-reset to the remote commit; sync the plugins and
config trees; then record OK, and when the resolved remote commit differs
from the pre-cycle local commit also stamp the deploy time and produce a
`DeploymentRecord` (author and changed files fall back to `"unknown"`/
empty when `git show --name-only` fails).  Each failure sets
`lastStatus = "ERROR"` and ends the cycle for this server. -/
def serverCycle (settings : Settings) (server : ServerConfig) (env : GitEnv)
    (st : ServerStatus) : CycleOut :=
  match server.enabled with
  | false => { status := st, events := [], record := none }
  | true =>
    let st1 := { st with lastRunTime := some env.nowIso }
    match env.pathsOk with
    | false =>
      { status := { st1 with lastError := some "missing paths", lastStatus := "ERROR" },
        events := [], record := none }
    | true =>
      let fetch := gitFetchWithRetries settings env
      match fetch.1 with
      | false =>
        { status := { st1 with lastStatus := "ERROR" }, events := fetch.2, record := none }
      | true =>
        match env.localHead, env.remoteCommit with
        | some lc, some rc =>
          match lc == "" || rc == "" with
          | true =>
            { status := { st1 with lastStatus := "ERROR" }, events := fetch.2, record := none }
          | false =>
            match validateJsonFromRef server env with
            | false =>
              { status := { st1 with lastStatus := "ERROR" }, events := fetch.2, record := none }
            | true =>
              match env.resetOk with
              | false =>
                { status := { st1 with lastStatus := "ERROR" },
                  events := fetch.2 ++ [Ev.resetHard rc], record := none }
              | true =>
                match env.syncPluginsOk with
                | false =>
                  { status := { st1 with lastStatus := "ERROR" },
                    events := fetch.2 ++ [Ev.resetHard rc, Ev.syncPlugins], record := none }
                | true =>
                  match env.syncConfigOk with
                  | false =>
                    { status := { st1 with lastStatus := "ERROR" },
                      events := fetch.2 ++ [Ev.resetHard rc, Ev.syncPlugins, Ev.syncConfig],
                      record := none }
                  | true =>
                    let st2 := { st1 with
                      lastCommit := some rc
                      lastDurationSeconds := some env.durationSeconds
                      lastError := none
                      lastStatus := "OK" }
                    match lc == rc with
                    | true =>
                      { status := st2,
                        events := fetch.2 ++ [Ev.resetHard rc, Ev.syncPlugins, Ev.syncConfig],
                        record := none }
                    | false =>
                      { status := { st2 with lastDeployTime := some env.nowIso },
                        events := fetch.2 ++ [Ev.resetHard rc, Ev.syncPlugins, Ev.syncConfig],
                        record := some
                          { server := server.name, commit := rc,
                            author := (match env.commitInfoOk with
                              | true => env.commitAuthor
                              | false => "unknown"),
                            files := (match env.commitInfoOk with
                              | true => env.commitFiles
                              | false => []),
                            durationSeconds := env.durationSeconds,
                            timestamp := env.nowIso, status := "OK" } }
        | _, _ =>
          { status := { st1 with lastStatus := "ERROR" }, events := fetch.2, record := none }

/-- Model of `_run_cycle` over the configured server list: the servers
are processed strictly in order, each with its own environment and status
(`continue` moves to the next server in every failure case). -/
def runCycle (settings : Settings) (envOf : String → GitEnv) (stOf : String → ServerStatus) :
    List CycleOut :=
  settings.servers.map
    (fun server => serverCycle settings server (envOf server.name) (stOf server.name))

/-- The event trace of a fetch whose every attempt fails: an attempt
bounded by the configured timeout, then the configured retry delay,
alternating, one pair per attempt. -/
def fetchFailEvents (settings : Settings) : Nat → List Ev
  | 0 => []
  | k + 1 =>
    Ev.fetchAttempt settings.gitTimeoutSeconds ::
      Ev.retrySleep settings.gitRetryDelaySeconds :: fetchFailEvents settings k

/-- Recognizes a fetch-attempt event. -/
def isFetchAttempt : Ev → Bool
  | Ev.fetchAttempt _ => true
  | _ => false

theorem fetchGo_all_fail (settings : Settings) (env : GitEnv)
    (hf : ∀ i, env.fetchResults i = false) :
    ∀ k a : Nat, fetchGo settings env a k = (false, fetchFailEvents settings k) := by
  intro k
  induction k with
  | zero => intro a; rfl
  | succ n ih =>
    intro a
    simp only [fetchGo, hf a, ih (a + 1), fetchFailEvents]

theorem countP_fetchFailEvents (settings : Settings) (k : Nat) :
    (fetchFailEvents settings k).countP isFetchAttempt = k := by
  induction k with
  | zero => rfl
  | succ n ih => simp [fetchFailEvents, List.countP_cons, isFetchAttempt, ih]

theorem mem_fetchFailEvents (settings : Settings) (k : Nat) (e : Ev) :
    e ∈ fetchFailEvents settings k →
      e = Ev.fetchAttempt settings.gitTimeoutSeconds ∨
        e = Ev.retrySleep settings.gitRetryDelaySeconds := by
  induction k with
  | zero => intro h; cases h
  | succ n ih =>
    intro h
    rcases List.mem_cons.mp h with h1 | h2
    · exact Or.inl h1
    rcases List.mem_cons.mp h2 with h3 | h4
    · exact Or.inr h3
    · exact ih h4

theorem fetchGo_no_reset (settings : Settings) (env : GitEnv) :
    ∀ (k a : Nat) (r : String), Ev.resetHard r ∉ (fetchGo settings env a k).2 := by
  intro k
  induction k with
  | zero => intro a r h; cases h
  | succ n ih =>
    intro a r h
    cases hfa : env.fetchResults a
    · simp only [fetchGo, hfa] at h
      rcases List.mem_cons.mp h with h1 | h2
      · cases h1
      rcases List.mem_cons.mp h2 with h3 | h4
      · cases h3
      · exact ih (a + 1) r h4
    · simp only [fetchGo, hfa] at h
      rcases List.mem_cons.mp h with h1 | h2
      · cases h1
      · cases h2

/-- C6: for an enabled server with valid paths whose fetch fails on every
attempt, the cycle's trace is exactly `gitRetryCount` fetch attempts,
each carrying the configured timeout bound, with the configured retry
delay slept between consecutive attempts; the server's status ends in
`ERROR` with no deployment recorded; and the run over the whole server
list still processes every other server before and after it. -/
theorem c6_fetch_retries (settings : Settings) (server : ServerConfig) (env : GitEnv)
    (st : ServerStatus) (hen : server.enabled = true) (hp : env.pathsOk = true)
    (hf : ∀ i, env.fetchResults i = false) :
    (serverCycle settings server env st).events =
      fetchFailEvents settings settings.gitRetryCount.toNat ∧
    (serverCycle settings server env st).events.countP isFetchAttempt =
      settings.gitRetryCount.toNat ∧
    (∀ t, Ev.fetchAttempt t ∈ (serverCycle settings server env st).events →
      t = settings.gitTimeoutSeconds) ∧
    (∀ d, Ev.retrySleep d ∈ (serverCycle settings server env st).events →
      d = settings.gitRetryDelaySeconds) ∧
    (serverCycle settings server env st).status.lastStatus = "ERROR" ∧
    (serverCycle settings server env st).record = none ∧
    (∀ (envOf : String → GitEnv) (stOf : String → ServerStatus)
        (pre post : List ServerConfig),
      runCycle { settings with servers := pre ++ server :: post } envOf stOf =
        pre.map (fun sv => serverCycle { settings with servers := pre ++ server :: post }
            sv (envOf sv.name) (stOf sv.name)) ++
          serverCycle { settings with servers := pre ++ server :: post }
            server (envOf server.name) (stOf server.name) ::
          post.map (fun sv => serverCycle { settings with servers := pre ++ server :: post }
            sv (envOf sv.name) (stOf sv.name))) := by
  have hfetch : gitFetchWithRetries settings env =
      (false, fetchFailEvents settings settings.gitRetryCount.toNat) :=
    fetchGo_all_fail settings env hf _ 1
  have hev : (serverCycle settings server env st).events =
      fetchFailEvents settings settings.gitRetryCount.toNat := by
    simp [serverCycle, hen, hp, hfetch]
  have hst : (serverCycle settings server env st).status.lastStatus = "ERROR" := by
    simp [serverCycle, hen, hp, hfetch]
  have hrec : (serverCycle settings server env st).record = none := by
    simp [serverCycle, hen, hp, hfetch]
  refine ⟨hev, ?_, ?_, ?_, hst, hrec, ?_⟩
  · rw [hev, countP_fetchFailEvents]
  · intro t hmem
    rw [hev] at hmem
    rcases mem_fetchFailEvents settings _ _ hmem with h1 | h1 <;> cases h1
    rfl
  · intro d hmem
    rw [hev] at hmem
    rcases mem_fetchFailEvents settings _ _ hmem with h1 | h1 <;> cases h1
    rfl
  · intro envOf stOf pre post
    simp [runCycle]

/-- A server configuration with the repository defaults, used by the
cycle witnesses and counterexamples. -/
def serverDemo : ServerConfig :=
  { name := "main", repoPath := "C:/deploy/repo", serverRoot := "C:/server",
    pluginsTarget := "C:/server/oxide/plugins", configTarget := "C:/server/oxide/config",
    branch := none, pluginsPattern := ["*.cs"], configPattern := ["*.json"],
    excludePatterns := [], deleteExtraneous := false, enabled := true }

/-- The freshly created status of the demo server. -/
def stInit : ServerStatus := { name := "main" }

/-- An environment whose fetch fails on every attempt. -/
def envFetchFail : GitEnv :=
  { pathsOk := true, fetchResults := fun _ => false, localHead := some "a",
    remoteCommit := some "b", lsTreeOk := true, refFiles := [], jsonOk := fun _ => true,
    resetOk := true, commitInfoOk := true, commitAuthor := "me", commitFiles := [],
    syncPluginsOk := true, syncConfigOk := true, nowIso := "t", durationSeconds := 1 }

/-- Witness for the C6 theorem at a concrete input: with
`GitRetryCount = 3` the cycle makes exactly 3 fetch attempts and ends in
`ERROR`. -/
theorem c6_fetch_retries_witness :
    serverDemo.enabled = true ∧ envFetchFail.pathsOk = true ∧
    (serverCycle settingsDemo serverDemo envFetchFail stInit).events.countP isFetchAttempt = 3 ∧
    (serverCycle settingsDemo serverDemo envFetchFail stInit).status.lastStatus = "ERROR" :=
  ⟨rfl, rfl,
    (c6_fetch_retries settingsDemo serverDemo envFetchFail stInit rfl rfl
      (fun _ => rfl)).2.1,
    (c6_fetch_retries settingsDemo serverDemo envFetchFail stInit rfl rfl
      (fun _ => rfl)).2.2.2.2.1⟩

theorem serverCycle_validate_false (settings : Settings) (server : ServerConfig)
    (env : GitEnv) (st : ServerStatus) (hen : server.enabled = true)
    (hval : validateJsonFromRef server env = false) :
    ((serverCycle settings server env st).events = [] ∨
      (serverCycle settings server env st).events = (gitFetchWithRetries settings env).2) ∧
    (serverCycle settings server env st).status.lastStatus = "ERROR" := by
  cases hpOk : env.pathsOk
  · constructor
    · left
      simp [serverCycle, hen, hpOk]
    · simp [serverCycle, hen, hpOk]
  · cases hf1 : (gitFetchWithRetries settings env).1
    · constructor
      · right
        simp [serverCycle, hen, hpOk, hf1]
      · simp [serverCycle, hen, hpOk, hf1]
    · cases hl : env.localHead with
      | none =>
        constructor
        · right
          simp [serverCycle, hen, hpOk, hf1, hl]
        · simp [serverCycle, hen, hpOk, hf1, hl]
      | some lc =>
        cases hr : env.remoteCommit with
        | none =>
          constructor
          · right
            simp [serverCycle, hen, hpOk, hf1, hl, hr]
          · simp [serverCycle, hen, hpOk, hf1, hl, hr]
        | some rc =>
          cases hguard : (lc == "" || rc == "")
          · constructor
            · right
              simp [serverCycle, hen, hpOk, hf1, hl, hr, hguard, hval]
            · simp [serverCycle, hen, hpOk, hf1, hl, hr, hguard, hval]
          · constructor
            · right
              simp [serverCycle, hen, hpOk, hf1, hl, hr, hguard]
            · simp [serverCycle, hen, hpOk, hf1, hl, hr, hguard]

/-- C2 amended: for an enabled server, if any file listed under the
`config/` subtree at the remote ref that survives the exclude patterns
and matches a config pattern has content that fails to parse as JSON,
then the cycle performs no `git reset --hard` and the server's
`lastStatus` ends as `ERROR`.  (The code validates only the `config/`
subtree of the ref, which is what restricts the original claim.) -/
theorem c2_validate_blocks_reset_amended (settings : Settings) (server : ServerConfig)
    (env : GitEnv) (st : ServerStatus) (hen : server.enabled = true)
    (hbad : ∃ p ∈ validateTargets server env,
      ∃ c, showFileAtRef env p = some c ∧ env.jsonOk c = false) :
    (∀ r, Ev.resetHard r ∉ (serverCycle settings server env st).events) ∧
    (serverCycle settings server env st).status.lastStatus = "ERROR" := by
  have hval : validateJsonFromRef server env = false := by
    obtain ⟨p, hp, c, hc, hj⟩ := hbad
    unfold validateJsonFromRef
    cases env.lsTreeOk
    · rfl
    · simp only [Bool.true_and]
      by_contra hne
      have hall := eq_true_of_ne_false hne
      have hfp := List.all_eq_true.mp hall p hp
      simp only [hc] at hfp
      rw [hj] at hfp
      cases hfp
  obtain ⟨hev, hst⟩ := serverCycle_validate_false settings server env st hen hval
  refine ⟨?_, hst⟩
  intro r hmem
  rcases hev with hev | hev
  · rw [hev] at hmem
    cases hmem
  · rw [hev] at hmem
    exact fetchGo_no_reset settings env _ 1 r hmem

/-- An environment whose remote ref holds an unparseable `bad.json` at
the repository root (outside `config/`), while everything else succeeds
and the remote commit differs from the local one. -/
def envBadRootJson : GitEnv :=
  { pathsOk := true, fetchResults := fun _ => true, localHead := some "a",
    remoteCommit := some "b", lsTreeOk := true,
    refFiles := [("bad.json", "not json")], jsonOk := fun _ => false,
    resetOk := true, commitInfoOk := true, commitAuthor := "me",
    commitFiles := ["bad.json"], syncPluginsOk := true, syncConfigOk := true,
    nowIso := "t", durationSeconds := 1 }

/-- C2: the claim as stated is false: `bad.json` sits at the remote ref,
matches the config pattern `*.json`, is not excluded and fails to parse,
yet the cycle still performs `git reset --hard` (and ends `OK`), because
`_validate_json_from_ref` lists only the `config/` subtree
(`ls-tree -r --name-only <ref> config`) and never inspects this file. -/
theorem c2_counterexample :
    (∃ e ∈ envBadRootJson.refFiles,
      fnmatch e.1 "*.json" = true ∧ serverDemo.configPattern = ["*.json"] ∧
      serverDemo.excludePatterns = [] ∧ envBadRootJson.jsonOk e.2 = false) ∧
    Ev.resetHard "b" ∈ (serverCycle settingsDemo serverDemo envBadRootJson stInit).events ∧
    (serverCycle settingsDemo serverDemo envBadRootJson stInit).status.lastStatus = "OK" := by
  decide

/-- An environment where `config/x.json` at the remote ref fails to
parse while the remote commit differs from the local one. -/
def envBadConfigJson : GitEnv :=
  { envBadRootJson with refFiles := [("config/x.json", "broken")] }

/-- C3: the claim as stated is false: here the resolved remote commit
(`b`) differs from the pre-cycle local commit (`a`), yet the cycle
appends no `DeploymentRecord` and stamps no `lastDeployTime`, because the
remote config JSON fails validation and the cycle aborts in `ERROR`
before the apply step. -/
theorem c3_counterexample :
    envBadConfigJson.localHead = some "a" ∧ envBadConfigJson.remoteCommit = some "b" ∧
    ¬("a" = "b") ∧
    (serverCycle settingsDemo serverDemo envBadConfigJson stInit).record = none ∧
    (serverCycle settingsDemo serverDemo envBadConfigJson stInit).status.lastDeployTime
      = none := by
  decide

/-- Witness for the amended C2 theorem at a concrete input: the broken
`config/x.json` blocks the reset and forces `ERROR`. -/
theorem c2_validate_blocks_reset_amended_witness :
    (serverCycle settingsDemo serverDemo envBadConfigJson stInit).status.lastStatus = "ERROR" ∧
    Ev.resetHard "b" ∉ (serverCycle settingsDemo serverDemo envBadConfigJson stInit).events :=
  ⟨(c2_validate_blocks_reset_amended settingsDemo serverDemo envBadConfigJson stInit rfl
      ⟨"config/x.json", by decide, "broken", rfl, rfl⟩).2,
   (c2_validate_blocks_reset_amended settingsDemo serverDemo envBadConfigJson stInit rfl
      ⟨"config/x.json", by decide, "broken", rfl, rfl⟩).1 "b"⟩

theorem err_ne_ok : ("ERROR" = "OK") = False := eq_false (by decide)

/-- C3 amended: for an enabled server, a `DeploymentRecord` is appended
exactly when the cycle completes with `lastStatus = "OK"` and the
resolved remote commit differs from the pre-cycle local commit, and
whenever a record is appended the deploy time is stamped; a cycle that
fails at any step appends nothing even when the commits differ. -/
theorem c3_deploy_record_amended (settings : Settings) (server : ServerConfig)
    (env : GitEnv) (st : ServerStatus) (hen : server.enabled = true) :
    ((serverCycle settings server env st).record.isSome = true ↔
      ((serverCycle settings server env st).status.lastStatus = "OK" ∧
        env.localHead.getD "" ≠ env.remoteCommit.getD "")) ∧
    ((serverCycle settings server env st).record.isSome = true →
      (serverCycle settings server env st).status.lastDeployTime = some env.nowIso) := by
  cases hpOk : env.pathsOk
  · simp [serverCycle, hen, hpOk, err_ne_ok]
  · cases hf1 : (gitFetchWithRetries settings env).1
    · simp [serverCycle, hen, hpOk, hf1, err_ne_ok]
    · cases hl : env.localHead with
      | none => simp [serverCycle, hen, hpOk, hf1, hl, err_ne_ok]
      | some lc =>
        cases hr : env.remoteCommit with
        | none => simp [serverCycle, hen, hpOk, hf1, hl, hr, err_ne_ok]
        | some rc =>
          cases hguard : (lc == "" || rc == "")
          · have hlc : (lc == "") = false := by
              cases hx : (lc == "")
              · rfl
              · rw [hx] at hguard
                simp at hguard
            have hrc : (rc == "") = false := by
              cases hx : (rc == "")
              · rfl
              · rw [hx] at hguard
                simp at hguard
            cases hval : validateJsonFromRef server env
            · simp [serverCycle, hen, hpOk, hf1, hl, hr, hlc, hrc, hval, err_ne_ok]
            · cases hreset : env.resetOk
              · simp [serverCycle, hen, hpOk, hf1, hl, hr, hlc, hrc, hval, hreset,
                  err_ne_ok]
              · cases hsp : env.syncPluginsOk
                · simp [serverCycle, hen, hpOk, hf1, hl, hr, hlc, hrc, hval, hreset, hsp,
                    err_ne_ok]
                · cases hsc : env.syncConfigOk
                  · simp [serverCycle, hen, hpOk, hf1, hl, hr, hlc, hrc, hval, hreset,
                      hsp, hsc, err_ne_ok]
                  · cases hlcrc : (lc == rc)
                    · have hne : ¬ lc = rc := ne_of_beq_false hlcrc
                      simp [serverCycle, hen, hpOk, hf1, hl, hr, hlc, hrc, hval, hreset,
                        hsp, hsc, hlcrc, hne]
                    · have heq : lc = rc := eq_of_beq hlcrc
                      simp [serverCycle, hen, hpOk, hf1, hl, hr, hlc, hrc, hval, hreset,
                        hsp, hsc, hlcrc, heq]
          · have hout : serverCycle settings server env st =
                { status := { st with lastRunTime := some env.nowIso, lastStatus := "ERROR" },
                  events := (gitFetchWithRetries settings env).2, record := none } := by
              simp [serverCycle, hen, hpOk, hf1, hl, hr, hguard]
            rw [hout]
            refine ⟨⟨fun h => by simp at h, ?_⟩, fun h => by simp at h⟩
            rintro ⟨h1, _⟩
            have h2 : ("ERROR" : String) = "OK" := by simp at h1
            exact absurd h2 (by decide)

/-- An environment in which every step succeeds and the remote commit
differs from the local one: a clean deploy. -/
def envDeploy : GitEnv :=
  { pathsOk := true, fetchResults := fun _ => true, localHead := some "a",
    remoteCommit := some "b", lsTreeOk := true,
    refFiles := [("config/x.json", "{}")], jsonOk := fun _ => true,
    resetOk := true, commitInfoOk := true, commitAuthor := "me",
    commitFiles := ["plugins/a.cs"], syncPluginsOk := true, syncConfigOk := true,
    nowIso := "t", durationSeconds := 1 }

/-- Witness for the amended C3 theorem at a concrete input: a clean
deploy cycle with differing commits appends a record and stamps the
deploy time. -/
theorem c3_deploy_record_amended_witness :
    (serverCycle settingsDemo serverDemo envDeploy stInit).record.isSome = true ∧
    (serverCycle settingsDemo serverDemo envDeploy stInit).status.lastDeployTime
      = some envDeploy.nowIso :=
  ⟨by decide,
   (c3_deploy_record_amended settingsDemo serverDemo envDeploy stInit rfl).2 (by decide)⟩

/-- A heap of status objects; the address of a cell is its index.  The
Python runtime state holds object references, and `ServerStatus.__dict__`
is the live attribute mapping of the object, so reference sharing is
modelled explicitly with addresses into this heap. -/
structure StatusHeap where
  cells : List ServerStatus
  deriving Repr, DecidableEq

/-- Dereference an object address. -/
def readCell (h : StatusHeap) (a : Nat) : Option ServerStatus :=
  h.cells.get? a

/-- Mutate the object at an address in place (`setattr`). -/
def writeCell (h : StatusHeap) (a : Nat) (s : ServerStatus) : StatusHeap :=
  ⟨h.cells.set a s⟩

/-- Model of `SyncState`: the heap of `ServerStatus` objects, the
`_servers` dict mapping each name to its object reference, and the
bounded history. -/
structure SyncStateRT where
  heap : StatusHeap
  serverAddrs : List (String × Nat)
  history : List DeploymentRecord
  deriving Repr

/-- Model of `SyncState.__init__(server_names)`: one fresh status object
per name, each dict entry holding the reference to its object. -/
def newSyncState (names : List String) : SyncStateRT :=
  { heap := ⟨names.map (fun n => { name := n })⟩,
    serverAddrs := names.enum.map (fun e => (e.2, e.1)),
    history := [] }

/-- The keyword arguments of one `update_server_status` call: each known
field optionally receives a new value. -/
structure StatusFields where
  lastDeployTime : Option (Option String) := none
  lastCommit : Option (Option String) := none
  lastError : Option (Option String) := none
  lastDurationSeconds : Option (Option Int) := none
  lastRunTime : Option (Option String) := none
  lastStatus : Option String := none
  deriving Repr

/-- Apply the provided keyword fields through `setattr`. -/
def setFields (s : ServerStatus) (u : StatusFields) : ServerStatus :=
  { s with
    lastDeployTime := u.lastDeployTime.getD s.lastDeployTime
    lastCommit := u.lastCommit.getD s.lastCommit
    lastError := u.lastError.getD s.lastError
    lastDurationSeconds := u.lastDurationSeconds.getD s.lastDurationSeconds
    lastRunTime := u.lastRunTime.getD s.lastRunTime
    lastStatus := u.lastStatus.getD s.lastStatus }

/-- Model of `SyncState.update_server_status`: an unknown name is a
silent no-op; otherwise the named status object is mutated in place
through its reference. -/
def updateServerStatus (st : SyncStateRT) (name : String) (u : StatusFields) : SyncStateRT :=
  match st.serverAddrs.find? (fun e => e.1 == name) with
  | none => st
  | some e =>
    let obj := (readCell st.heap e.2).getD { name := name }
    { st with heap := writeCell st.heap e.2 (setFields obj u) }

/-- Model of the servers part of `SyncState.snapshot`: the returned list
is a new list, but each entry is `self._servers[name].__dict__` — the
live attribute mapping of the status object, modelled as its heap
address.  (The history part likewise returns the records' live
`__dict__`s; records are never mutated after creation, so the observable
aliasing is through the statuses.) -/
def snapshotServers (st : SyncStateRT) : List Nat :=
  st.serverAddrs.map (fun e => e.2)

/-- What an observer reads through a previously returned snapshot under
the current heap: dereference each saved reference. -/
def snapshotView (h : StatusHeap) (snap : List Nat) : List (Option ServerStatus) :=
  snap.map (readCell h)

/-- The runtime state with one server `main`, as built at engine start. -/
def stateC5 : SyncStateRT := newSyncState ["main"]

/-- A snapshot taken before any update. -/
def snapC5 : List Nat := snapshotServers stateC5

/-- The state after the engine sets `last_status="OK"` for `main`. -/
def stateC5b : SyncStateRT := updateServerStatus stateC5 "main" { lastStatus := some "OK" }

/-- C5: the claim is the intended design but the code breaks it:
`snapshot()` builds its `servers` list from `status.__dict__`, the live
attribute mapping of each status object, not a copy.  At this concrete
input, an `update_server_status` performed after the snapshot changes the
content read through the previously returned snapshot, and the snapshot
entry for `main` is the very reference (`address 0`) through which the
runtime state mutates its own status object. -/
theorem c5_snapshot_live_reference :
    snapshotView stateC5b.heap snapC5 ≠ snapshotView stateC5.heap snapC5 ∧
    snapC5 = [0] ∧
    (stateC5.serverAddrs.find? (fun e => e.1 == "main")).map (fun e => e.2) = some 0 := by
  decide

end RustSync
